import Mathlib

/-!
Verification development for the instance dispatch runtime of
`html5/runtime/init.js` (weex js framework).

The runtime receives bundle source text plus an instance id, detects which
rendering-framework backend the bundle targets via a header comment, keeps a
registry `instanceMap` of live instances, and routes every later call for an
id to the backend recorded for it.  Cross-cutting "services" observe the
instance lifecycle via optional `create` / `refresh` / `destroy` hooks.

Modelling conventions:
* JS values flowing through the JSON machinery are modelled by the tree type
  `JTree`; `undefined` stands for JavaScript `undefined` (it is never produced by
  `jsonParse`).
* JSON numbers are stored as their source lexeme (a `String`).  No claim
  performs numeric arithmetic or compares numbers obtained from distinct
  lexemes, so double conversion is not modelled.
* Host built-ins (`JSON.parse`, `JSON.stringify`, `RegExp`, property access,
  truthiness, string coercion) are modelled directly; backend and service
  implementations are opaque parameters whose invocations are recorded as
  events.
* The only JavaScript exception modelled is the `TypeError` raised by calling
  a method that is absent (`undefined`) on a backend object; backend and hook
  functions that are present are modelled as total, returning arbitrary
  values (the spec's error-as-value contract).
-/

/-- JavaScript values in the JSON fragment, plus `undefined`. -/
inductive JTree where
  | undefined : JTree
  | null : JTree
  | bool : Bool → JTree
  | num : String → JTree
  | str : String → JTree
  | arr : List JTree → JTree
  | obj : List (String × JTree) → JTree

/-- Property read `t[k]`: on objects, the first binding for the key (JS
objects have unique keys; our association lists keep the first), otherwise
`undefined` (property reads on primitives are out of the claims' scope). -/
def getField (t : JTree) (k : String) : JTree :=
  match t with
  | .obj fields =>
    match fields.find? (fun p => p.1 == k) with
    | some p => p.2
    | none => .undefined
  | _ => .undefined

/-- Property write `t[k] = v`: on objects an existing key keeps its position
and is updated, a new key is appended (JS insertion order).  Writes on
non-objects are modelled as no-ops (no claim exercises them). -/
def setField (t : JTree) (k : String) (v : JTree) : JTree :=
  match t with
  | .obj fields =>
    if fields.any (fun p => p.1 == k) then
      .obj (fields.map (fun p => if p.1 == k then (k, v) else p))
    else
      .obj (fields ++ [(k, v)])
  | other => other

/-- Whether the mantissa of a JSON number lexeme has a nonzero digit
(`0`, `0.00`, `-0`, `0e5` are falsy; double underflow is not modelled). -/
def numLexemeNonzero (s : String) : Bool :=
  (s.toList.takeWhile (fun c => c ≠ 'e' ∧ c ≠ 'E')).any
    (fun c => c.isDigit ∧ c ≠ '0')

/-- JavaScript truthiness of a modelled value. -/
def jsTruthy (t : JTree) : Bool :=
  match t with
  | .undefined => false
  | .null => false
  | .bool b => b
  | .num s => numLexemeNonzero s
  | .str s => s ≠ ""
  | .arr _ => true
  | .obj _ => true

mutual

/-- JavaScript `ToString` on the modelled fragment.  Numbers are rendered by
their lexeme (an approximation of double formatting that no claim relies
on); arrays join their elements with commas, rendering `null`/`undefined`
elements as the empty string, exactly as `Array.prototype.toString`. -/
def jsToString (t : JTree) : String :=
  match t with
  | .undefined => "undefined"
  | .null => "null"
  | .bool true => "true"
  | .bool false => "false"
  | .num s => s
  | .str s => s
  | .arr es => jsToStringElems es
  | .obj _ => "[object Object]"

/-- Comma-joined rendering of array elements for `jsToString`: `null` and
`undefined` elements print empty, as in `Array.prototype.join`. -/
def jsToStringElems (es : List JTree) : String :=
  match es with
  | [] => ""
  | e :: rest =>
    (match e with
     | .undefined => ""
     | .null => ""
     | _ => jsToString e) ++
    (match rest with
     | [] => ""
     | _ => "," ++ jsToStringElems rest)

end

mutual

/-- Value-level model of the composite `JSON.parse(JSON.stringify(t))` used
by `createInstance` to snapshot configuration objects: `undefined` is not
serializable at top level, `undefined`-valued object fields are dropped,
`undefined` array elements become `null`.  (The aliasing content of this
round-trip — that the result is a fresh deep copy — is modelled separately
by the heap development below.) -/
def jsonRoundTrip (t : JTree) : Option JTree :=
  match t with
  | .undefined => none
  | .null => some .null
  | .bool b => some (.bool b)
  | .num s => some (.num s)
  | .str s => some (.str s)
  | .arr es => some (.arr (jsonRoundTripElems es))
  | .obj fs => some (.obj (jsonRoundTripFields fs))

/-- Array elements under the JSON round-trip. -/
def jsonRoundTripElems (es : List JTree) : List JTree :=
  match es with
  | [] => []
  | e :: rest => ((jsonRoundTrip e).getD .null) :: jsonRoundTripElems rest

/-- Object fields under the JSON round-trip (unserializable values drop the
field). -/
def jsonRoundTripFields (fs : List (String × JTree)) : List (String × JTree) :=
  match fs with
  | [] => []
  | (k, v) :: rest =>
    match jsonRoundTrip v with
    | some v2 => (k, v2) :: jsonRoundTripFields rest
    | none => jsonRoundTripFields rest

end

/-- The character `\x7b` (opening brace). -/
def lbrace : Char := Char.ofNat 123

/-- The character `\x7d` (closing brace). -/
def rbrace : Char := Char.ofNat 125

/-- Characters matched by the JavaScript regexp class `\s` (the exotic
Unicode space characters beyond NBSP and the BOM are omitted; no claim uses
them). -/
def isJsSpace (c : Char) : Bool :=
  c = ' ' || c = '\t' || c = '\n' || c = '\r' || c = '\x0B' ||
    c = '\x0C' || c = ' ' || c = '﻿'

/-- Matcher for `versionRegExp`, the anchored JavaScript regular expression
(slash slash) from init.js line 7: optional `\s*`, two slashes, optional
spaces, a brace-delimited group whose body contains no closing brace,
optional spaces, then a line terminator `\r?\n`.  Every subpattern is
followed by a character its class cannot match, so greedy matching without
backtracking is exact.  Returns the captured group (braces included). -/
def versionMatch (cs : List Char) : Option (List Char) :=
  match cs.dropWhile isJsSpace with
  | '/' :: '/' :: r1 =>
    match r1.dropWhile (fun c => c = ' ') with
    | c :: r2 =>
      if c = lbrace then
        let inner := r2.takeWhile (fun x => x ≠ rbrace)
        match r2.dropWhile (fun x => x ≠ rbrace) with
        | _ :: r3 =>
          match r3.dropWhile (fun x => x = ' ') with
          | '\r' :: '\n' :: _ => some (lbrace :: (inner ++ [rbrace]))
          | '\n' :: _ => some (lbrace :: (inner ++ [rbrace]))
          | _ => none
        | [] => none
      else none
    | [] => none
  | _ => none

/-- JSON insignificant whitespace. -/
def isJsonWs (c : Char) : Bool :=
  c = ' ' || c = '\t' || c = '\n' || c = '\r'

/-- Value of a hexadecimal digit. -/
def hexDigitVal (c : Char) : Option Nat :=
  if '0' ≤ c ∧ c ≤ '9' then some (c.toNat - 48)
  else if 'a' ≤ c ∧ c ≤ 'f' then some (c.toNat - 87)
  else if 'A' ≤ c ∧ c ≤ 'F' then some (c.toNat - 55)
  else none

/-- Body of a JSON string literal (the opening quote already consumed):
standard escapes, `\uXXXX` code units, raw control characters rejected.
Surrogate pairing is not modelled (`Char.ofNat` maps lone surrogates to
NUL); no claim contains non-BMP text. -/
def parseJsonString (fuel : Nat) (cs : List Char) (acc : List Char) :
    Option (String × List Char) :=
  match fuel, cs with
  | 0, _ => none
  | _ + 1, [] => none
  | fuel + 1, c :: rest =>
    if c = '"' then some (String.mk acc.reverse, rest)
    else if c = '\\' then
      match rest with
      | 'u' :: h1 :: h2 :: h3 :: h4 :: r2 =>
        match hexDigitVal h1, hexDigitVal h2, hexDigitVal h3, hexDigitVal h4 with
        | some a, some b, some cc, some d =>
          parseJsonString fuel r2 (Char.ofNat (((a * 16 + b) * 16 + cc) * 16 + d) :: acc)
        | _, _, _, _ => none
      | e :: r2 =>
        if e = '"' then parseJsonString fuel r2 ('"' :: acc)
        else if e = '\\' then parseJsonString fuel r2 ('\\' :: acc)
        else if e = '/' then parseJsonString fuel r2 ('/' :: acc)
        else if e = 'b' then parseJsonString fuel r2 ('\x08' :: acc)
        else if e = 'f' then parseJsonString fuel r2 ('\x0C' :: acc)
        else if e = 'n' then parseJsonString fuel r2 ('\n' :: acc)
        else if e = 'r' then parseJsonString fuel r2 ('\r' :: acc)
        else if e = 't' then parseJsonString fuel r2 ('\t' :: acc)
        else none
      | [] => none
    else if c.toNat < 32 then none
    else parseJsonString fuel rest (c :: acc)

/-- Lexer for a JSON number: `-? (0 | [1-9][0-9]*) (. [0-9]+)? ([eE][+-]?[0-9]+)?`.
Returns the lexeme and the remaining input. -/
def parseJsonNumber (cs : List Char) : Option (String × List Char) :=
  let sign : List Char × List Char :=
    match cs with
    | '-' :: rest => (['-'], rest)
    | _ => ([], cs)
  match sign.2 with
  | [] => none
  | d :: rest =>
    if d = '0' then
      let afterInt := rest
      let intPart := sign.1 ++ ['0']
      let fracStep : Option (List Char × List Char) :=
        match afterInt with
        | '.' :: f1 :: frest =>
          if f1.isDigit then
            some (intPart ++ '.' :: f1 :: frest.takeWhile Char.isDigit,
              frest.dropWhile Char.isDigit)
          else none
        | '.' :: [] => none
        | _ => some (intPart, afterInt)
      match fracStep with
      | none => none
      | some (lex, rest2) =>
        match rest2 with
        | e :: erest =>
          if e = 'e' ∨ e = 'E' then
            let esign : List Char × List Char :=
              match erest with
              | s :: srest => if s = '+' ∨ s = '-' then ([s], srest) else ([], erest)
              | [] => ([], erest)
            match esign.2 with
            | d2 :: drest =>
              if d2.isDigit then
                some (String.mk (lex ++ e :: esign.1 ++ d2 :: drest.takeWhile Char.isDigit),
                  drest.dropWhile Char.isDigit)
              else none
            | [] => none
          else some (String.mk lex, rest2)
        | [] => some (String.mk lex, rest2)
    else if d.isDigit then
      let intPart := sign.1 ++ d :: rest.takeWhile Char.isDigit
      let afterInt := rest.dropWhile Char.isDigit
      let fracStep : Option (List Char × List Char) :=
        match afterInt with
        | '.' :: f1 :: frest =>
          if f1.isDigit then
            some (intPart ++ '.' :: f1 :: frest.takeWhile Char.isDigit,
              frest.dropWhile Char.isDigit)
          else none
        | '.' :: [] => none
        | _ => some (intPart, afterInt)
      match fracStep with
      | none => none
      | some (lex, rest2) =>
        match rest2 with
        | e :: erest =>
          if e = 'e' ∨ e = 'E' then
            let esign : List Char × List Char :=
              match erest with
              | s :: srest => if s = '+' ∨ s = '-' then ([s], srest) else ([], erest)
              | [] => ([], erest)
            match esign.2 with
            | d2 :: drest =>
              if d2.isDigit then
                some (String.mk (lex ++ e :: esign.1 ++ d2 :: drest.takeWhile Char.isDigit),
                  drest.dropWhile Char.isDigit)
              else none
            | [] => none
          else some (String.mk lex, rest2)
        | [] => some (String.mk lex, rest2)
    else none

mutual

/-- Recursive-descent parser for one JSON value (leading whitespace
allowed), returning the value and the remaining input.  Fuel bounds the
recursion; every unit of fuel spent consumes at least one input character,
so `length + 1` fuel always suffices. -/
def parseJsonValue : Nat → List Char → Option (JTree × List Char)
  | 0, _ => none
  | fuel + 1, cs =>
    match cs.dropWhile isJsonWs with
    | [] => none
    | c :: rest =>
      if c = '"' then
        (parseJsonString (rest.length + 1) rest []).map
          (fun p => (JTree.str p.1, p.2))
      else if c = lbrace then
        match rest.dropWhile isJsonWs with
        | d :: r2 => if d = rbrace then some (.obj [], r2)
                     else parseJsonMembers fuel rest []
        | [] => none
      else if c = '[' then
        match rest.dropWhile isJsonWs with
        | ']' :: r2 => some (.arr [], r2)
        | _ => parseJsonElems fuel rest []
      else if c = 't' then
        match rest with
        | 'r' :: 'u' :: 'e' :: r2 => some (.bool true, r2)
        | _ => none
      else if c = 'f' then
        match rest with
        | 'a' :: 'l' :: 's' :: 'e' :: r2 => some (.bool false, r2)
        | _ => none
      else if c = 'n' then
        match rest with
        | 'u' :: 'l' :: 'l' :: r2 => some (.null, r2)
        | _ => none
      else
        (parseJsonNumber (c :: rest)).map (fun p => (JTree.num p.1, p.2))

/-- Members of a JSON object after the opening brace (at least one member
present), accumulating parsed fields in order. -/
def parseJsonMembers (fuel : Nat) (cs : List Char)
    (acc : List (String × JTree)) : Option (JTree × List Char) :=
  match fuel with
  | 0 => none
  | fuel + 1 =>
    match cs.dropWhile isJsonWs with
    | '"' :: r1 =>
      match parseJsonString (r1.length + 1) r1 [] with
      | none => none
      | some (key, r2) =>
        match r2.dropWhile isJsonWs with
        | ':' :: r3 =>
          match parseJsonValue fuel r3 with
          | none => none
          | some (v, r4) =>
            match r4.dropWhile isJsonWs with
            | ',' :: r5 => parseJsonMembers fuel r5 (acc ++ [(key, v)])
            | d :: r5 =>
              if d = rbrace then some (.obj (acc ++ [(key, v)]), r5) else none
            | [] => none
        | _ => none
    | _ => none

/-- Elements of a JSON array after the opening bracket (at least one element
present), accumulating parsed elements in order. -/
def parseJsonElems (fuel : Nat) (cs : List Char)
    (acc : List JTree) : Option (JTree × List Char) :=
  match fuel with
  | 0 => none
  | fuel + 1 =>
    match parseJsonValue fuel cs with
    | none => none
    | some (v, r1) =>
      match r1.dropWhile isJsonWs with
      | ',' :: r2 => parseJsonElems fuel r2 (acc ++ [v])
      | ']' :: r2 => some (.arr (acc ++ [v]), r2)
      | _ => none

end

/-- Model of `JSON.parse` on the text `cs`: one JSON value surrounded by
optional whitespace; `none` is a thrown `SyntaxError` (always caught at the
use sites modelled here). -/
def jsonParse (cs : List Char) : Option JTree :=
  match parseJsonValue (cs.length + 1) cs with
  | some (t, rest) => if rest.dropWhile isJsonWs = [] then some t else none
  | none => none

/-- `checkVersion` (init.js lines 16–26): run `versionRegExp` on the code;
on a match, `JSON.parse` the captured group, swallowing parse failures;
the result is the detected descriptor or `undefined` (`none`). -/
def checkVersion (code : String) : Option JTree :=
  match versionMatch code.toList with
  | some cap => jsonParse cap
  | none => none

/-- Call-level values: JSON-fragment values, JS `Error` objects (the
error-as-value contract of the runtime), and opaque host values returned by
backends. -/
inductive Value where
  | tree : JTree → Value
  | errObj : String → Value
  | hostVal : Nat → Value

/-- The only exception the embedding models: the `TypeError` thrown when a
call expression's callee evaluates to `undefined` (an absent method). -/
inductive Exn where
  | typeError : String → Exn

/-- The dispatch method names: the four instance-routed names fed to
`genInstance` and the three fan-out names fed to `genInit`. -/
inductive MethodName where
  | destroyInstance
  | refreshInstance
  | receiveTasks
  | getRoot
  | registerComponents
  | registerModules
  | registerMethods
deriving DecidableEq

/-- Which lifecycle hook of a service was invoked. -/
inductive HookKind where
  | create
  | refresh
  | destroy
deriving DecidableEq

/-- JS property-key coercion for the value indexing `instanceMap`. -/
def valueToKey (v : Value) : String :=
  match v with
  | .tree t => jsToString t
  | .errObj msg => "Error: " ++ msg
  | .hostVal _ => "[object Object]"

/-- A backend: the optional dispatch methods probed by `genInstance` /
`genInit`, and the `createInstance` entry (also optional — the source calls
it unguarded, so absence throws).  Present methods are total: they may
return any value, including `Error` values. -/
structure Framework where
  methods : MethodName → Option (List Value → Value)
  createInstance : Option (Value → String → JTree → Value → JTree → Value)

/-- A service's optional lifecycle hooks, as consumed by init.js: `create`
returns an object merged into `serviceObjects`; `refresh` / `destroy` are
observers (their host side effects are outside the model, their invocation
is recorded as an event). -/
structure ServiceOptions where
  create : Option (Value → JTree → JTree → JTree)
  refresh : Option (Value → JTree → Unit)
  destroy : Option (Value → JTree → Unit)

/-- One registered service (`name` identifies it in the event trace). -/
structure Service where
  name : String
  options : ServiceOptions

/-- The ambient environment closed over by the generated methods: the
framework registry fixed at `init`, the registered services, and
`global.WXEnvironment`. -/
structure Env where
  frameworks : List (String × Framework)
  services : List Service
  wxEnvironment : JTree

/-- The mutable state: `instanceMap`, an insertion-ordered association from
instance-id key to the instance's `info` record. -/
structure RuntimeState where
  instanceMap : List (String × JTree)

/-- Observable actions recorded by the embedding, in execution order. -/
inductive Event where
  | backendCall : String → MethodName → List Value → Event
  | backendCreate : String → String → JTree → JTree → Event
  | serviceHook : String → HookKind → String → Event
  | registerElement : JTree → JTree → Event

/-- `frameworks[name]` (an absent or falsy entry is `none`; registered
backends are objects, hence truthy). -/
def lookupFw (fws : List (String × Framework)) (name : String) : Option Framework :=
  (fws.find? (fun p => p.1 == name)).map (fun p => p.2)

/-- `instanceMap[k]` (records are objects, hence truthy when present). -/
def lookupReg (st : RuntimeState) (k : String) : Option JTree :=
  (st.instanceMap.find? (fun p => p.1 == k)).map (fun p => p.2)

/-- The error value `new Error('invalid instance id "<id>"')`. -/
def invalidInstanceError (id : String) : Value :=
  .errObj ("invalid instance id \"" ++ id ++ "\"")

/-- `Object.assign(target, src)`: merge the fields of an object source into
the target, later writes overwriting earlier ones (primitive sources, whose
index properties `Object.assign` would copy, are out of the claims' scope
and ignored). -/
def objAssign (target : JTree) (src : JTree) : JTree :=
  match src with
  | .obj fs => fs.foldl (fun acc kv => setField acc kv.1 kv.2) target
  | _ => target

/-- The service-create loop of `createInstance`: starting from
`Object.create(null)`, invoke each service's create hook (when present) in
registration order and merge its result, recording one event per invoked
hook. -/
def runCreateHooks (services : List Service) (id : Value) (idKey : String)
    (info : JTree) (config : JTree) : JTree × List Event :=
  services.foldl
    (fun acc s =>
      match s.options.create with
      | some f =>
        (objAssign acc.1 (f id info config),
          acc.2 ++ [Event.serviceHook s.name .create idKey])
      | none => acc)
    (JTree.obj [], [])

/-- `createInstance` (init.js lines 38–68): reject a duplicate id with an
`invalid instance id` error value; otherwise detect the bundle's framework,
default it to `"Weex"` when undeclared or unregistered, stamp `created`,
insert the record, build the configuration snapshot (JSON round-trip of the
caller config, plus `bundleVersion` from the descriptor and a copied `env`),
run the service create hooks, and delegate to the resolved backend's
`createInstance` (unguarded: if the backend or its method is missing the
call throws a `TypeError`). -/
def createInstance (env : Env) (now : Nat) (st : RuntimeState) (id : Value)
    (code : String) (config : JTree) (data : Value) :
    Except Exn Value × RuntimeState × List Event :=
  let idKey := valueToKey id
  match lookupReg st idKey with
  | some _ => (.ok (invalidInstanceError idKey), st, [])
  | none =>
    let info0 := (checkVersion code).getD (.obj [])
    let info1 :=
      if (lookupFw env.frameworks (jsToString (getField info0 "framework"))).isNone
      then setField info0 "framework" (.str "Weex") else info0
    let info := setField info1 "created" (.num (toString now))
    let st1 : RuntimeState := ⟨st.instanceMap ++ [(idKey, info)]⟩
    let cfg0 := (jsonRoundTrip (if jsTruthy config then config else .obj [])).getD .undefined
    let cfg1 := setField cfg0 "bundleVersion" (getField info "version")
    let cfg := setField cfg1 "env"
      ((jsonRoundTrip (if jsTruthy env.wxEnvironment then env.wxEnvironment
        else .obj [])).getD .undefined)
    let hooks := runCreateHooks env.services id idKey info cfg
    let fwName := jsToString (getField info "framework")
    match lookupFw env.frameworks fwName with
    | none =>
      (.error (.typeError "cannot read createInstance of undefined"), st1, hooks.2)
    | some fw =>
      match fw.createInstance with
      | none =>
        (.error (.typeError "createInstance is not a function"), st1, hooks.2)
      | some f =>
        (.ok (f id code cfg data hooks.1), st1,
          hooks.2 ++ [Event.backendCreate fwName idKey cfg hooks.1])

/-- The refresh-hook fan-out of `genInstance`: one event per service whose
options carry a `refresh` hook, in registration order. -/
def refreshHookEvents (services : List Service) (idKey : String) : List Event :=
  services.filterMap
    (fun s => (s.options.refresh).map (fun _ => Event.serviceHook s.name .refresh idKey))

/-- The destroy-hook fan-out of `genInstance`: one event per service whose
options carry a `destroy` hook, in registration order. -/
def destroyHookEvents (services : List Service) (idKey : String) : List Event :=
  services.filterMap
    (fun s => (s.options.destroy).map (fun _ => Event.serviceHook s.name .destroy idKey))

/-- The entry point `genInstance` builds for a method name (init.js lines
106–136): look up the record by the first argument; with no record, or with
the record's framework absent from the registry, return the `invalid
instance id` error value; otherwise call the backend's same-named method
(throwing `TypeError` when absent), then — for `refreshInstance` /
`destroyInstance` — run every service's corresponding hook in registration
order, and for `destroyInstance` delete the record afterwards. -/
def genInstanceCall (env : Env) (m : MethodName) (st : RuntimeState)
    (args : List Value) : Except Exn Value × RuntimeState × List Event :=
  let idv := args.headD (.tree .undefined)
  let idKey := valueToKey idv
  match lookupReg st idKey with
  | none => (.ok (invalidInstanceError idKey), st, [])
  | some info =>
    let fwName := jsToString (getField info "framework")
    match lookupFw env.frameworks fwName with
    | none => (.ok (invalidInstanceError idKey), st, [])
    | some fw =>
      match fw.methods m with
      | none =>
        (.error (.typeError "framework method is not a function"), st, [])
      | some f =>
        let result := f args
        if m = .refreshInstance then
          (.ok result, st,
            Event.backendCall fwName m args :: refreshHookEvents env.services idKey)
        else if m = .destroyInstance then
          (.ok result, ⟨st.instanceMap.filter (fun p => p.1 != idKey)⟩,
            Event.backendCall fwName m args :: destroyHookEvents env.services idKey)
        else
          (.ok result, st, [Event.backendCall fwName m args])

/-- The legacy alias built by `adaptInstance` (init.js lines 144–153): the
same id lookup and delegation as `genInstance`, with no lifecycle hooks and
no registry mutation.  `init` wires it as `callJS = adaptCall · .receiveTasks`. -/
def adaptCall (env : Env) (m : MethodName) (st : RuntimeState)
    (args : List Value) : Except Exn Value × RuntimeState × List Event :=
  let idv := args.headD (.tree .undefined)
  let idKey := valueToKey idv
  match lookupReg st idKey with
  | none => (.ok (invalidInstanceError idKey), st, [])
  | some info =>
    let fwName := jsToString (getField info "framework")
    match lookupFw env.frameworks fwName with
    | none => (.ok (invalidInstanceError idKey), st, [])
    | some fw =>
      match fw.methods m with
      | none =>
        (.error (.typeError "framework method is not a function"), st, [])
      | some f => (.ok (f args), st, [Event.backendCall fwName m args])

/-- `checkComponentMethods` (init.js lines 92–100): for an array argument,
register `entry.methods` under `entry.type` in the external element-type
registry for every truthy entry with truthy `type` and `methods` fields;
anything else is silently ignored. -/
def checkComponentMethods (components : Value) : List Event :=
  match components with
  | .tree (.arr elems) =>
    elems.filterMap (fun e =>
      if jsTruthy e && jsTruthy (getField e "type") && jsTruthy (getField e "methods")
      then some (Event.registerElement (getField e "type") (getField e "methods"))
      else none)
  | _ => []

/-- The fan-out entry point `genInit` builds for a registration method name
(init.js lines 78–90): for `registerComponents`, first run
`checkComponentMethods` on the first argument; then call the same-named
method on every registered backend that has it, in registry order, silently
skipping backends without it. -/
def genInitCall (env : Env) (m : MethodName) (args : List Value) : List Event :=
  (if m = .registerComponents
   then checkComponentMethods (args.headD (.tree .undefined)) else [])
    ++ env.frameworks.filterMap
        (fun p => (p.2.methods m).map (fun _ => Event.backendCall p.1 m args))

namespace Heap

/-!
Heap model for the configuration snapshot of `createInstance` (init.js line
49): `config = JSON.parse(JSON.stringify(config || {}))`.  The tree-level
model `jsonRoundTrip` above cannot express what this line is for — that the
snapshot shares no mutable object with the caller's value — so here objects
live in an explicit store addressed by `Nat` references: `JSON.stringify`
becomes a store-reading serialization (`toTree`) and `JSON.parse` becomes a
fresh allocation of the serialized tree (`fromTree`).
-/

/-- A heap value: a primitive or a reference into the store. -/
inductive HVal where
  | vundefined : HVal
  | vnull : HVal
  | vbool : Bool → HVal
  | vnum : String → HVal
  | vstr : String → HVal
  | vref : Nat → HVal
deriving DecidableEq

/-- A heap object: a JS object (ordered fields) or an array. -/
inductive HObj where
  | obj : List (String × HVal) → HObj
  | arr : List HVal → HObj
deriving DecidableEq

/-- The store: reference `r` denotes `objs[r]`; allocation appends. -/
structure Store where
  objs : List HObj
deriving DecidableEq

/-- The values directly contained in a heap object. -/
def fieldVals : HObj → List HVal
  | .obj fs => fs.map (fun p => p.2)
  | .arr es => es

/-- Serialization of a heap value (the `JSON.stringify` half of the
snapshot): read the store, drop `undefined` object fields, render
`undefined` array elements as `null`.  Fuel bounds the traversal depth;
`none` on exhaustion corresponds to `JSON.stringify` throwing on a cyclic
value. -/
def toTree : Nat → Store → HVal → Option JTree
  | 0, _, _ => none
  | _ + 1, _, .vundefined => none
  | _ + 1, _, .vnull => some .null
  | _ + 1, _, .vbool b => some (.bool b)
  | _ + 1, _, .vnum s => some (.num s)
  | _ + 1, _, .vstr s => some (.str s)
  | fuel + 1, st, .vref r =>
    match st.objs[r]? with
    | none => none
    | some (.obj fs) =>
      some (.obj (fs.filterMap
        (fun p => (toTree fuel st p.2).map (fun t => (p.1, t)))))
    | some (.arr es) =>
      some (.arr (es.map (fun v => (toTree fuel st v).getD .null)))

/-- Materialization of a tree as fresh heap objects (the `JSON.parse` half
of the snapshot): children are allocated left to right, then the parent is
appended; every allocation extends the store. -/
def fromTree : Nat → Store → JTree → Store × HVal
  | 0, st, _ => (st, .vundefined)
  | _ + 1, st, .undefined => (st, .vundefined)
  | _ + 1, st, .null => (st, .vnull)
  | _ + 1, st, .bool b => (st, .vbool b)
  | _ + 1, st, .num s => (st, .vnum s)
  | _ + 1, st, .str s => (st, .vstr s)
  | fuel + 1, st, .arr es =>
    let p := es.foldl
      (fun acc e =>
        let q := fromTree fuel acc.1 e
        (q.1, acc.2 ++ [q.2]))
      (st, ([] : List HVal))
    (⟨p.1.objs ++ [.arr p.2]⟩, .vref p.1.objs.length)
  | fuel + 1, st, .obj fs =>
    let p := fs.foldl
      (fun acc kv =>
        let q := fromTree fuel acc.1 kv.2
        (q.1, acc.2 ++ [(kv.1, q.2)]))
      (st, ([] : List (String × HVal)))
    (⟨p.1.objs ++ [.obj p.2]⟩, .vref p.1.objs.length)

/-- Heap model of `JSON.parse(JSON.stringify(cfg))`: serialize, then
materialize fresh. -/
def configSnapshotCopy (fuel : Nat) (st : Store) (cfg : HVal) :
    Option (Store × HVal) :=
  (toTree fuel st cfg).map (fun t => fromTree fuel st t)

/-- Whether a value only references addresses inside the region `p`. -/
def valInRegion (p : Nat → Bool) : HVal → Bool
  | .vref r => p r
  | _ => true

/-- Whether an object only references addresses inside the region `p`. -/
def objInRegion (p : Nat → Bool) (o : HObj) : Bool :=
  (fieldVals o).all (valInRegion p)

/-- A region is closed in a store when every object stored at an address of
the region only references addresses of the region. -/
def storeClosedOn (st : Store) (p : Nat → Bool) : Bool :=
  (List.range st.objs.length).all (fun r =>
    !p r ||
      (match st.objs[r]? with
       | some o => objInRegion p o
       | none => true))

/-- Overwrite the object at address `r` — the model of an arbitrary
mutation of that object (field update, addition, deletion, element
assignment are all instances). -/
def updateObj (st : Store) (r : Nat) (o : HObj) : Store :=
  ⟨st.objs.set r o⟩

/-- The region of addresses at or above the allocation watermark `n`. -/
def regionGE (n : Nat) : Nat → Bool := fun r => decide (n ≤ r)

/-- The region of addresses below the watermark `n`. -/
def regionLT (n : Nat) : Nat → Bool := fun r => decide (r < n)

/-- The first store extends the second by allocation only: it is at least
as long and old addresses keep their objects. -/
def extendsFrom (st' st : Store) : Prop :=
  st.objs.length ≤ st'.objs.length ∧
    ∀ r, r < st.objs.length → st'.objs[r]? = st.objs[r]?

/-- Every object stored at or above `n` references only addresses at or
above `n`. -/
def freshClosed (n : Nat) (st : Store) : Prop :=
  ∀ r o, n ≤ r → st.objs[r]? = some o → objInRegion (regionGE n) o = true

end Heap

/-- Backend stub for concrete runs: every dispatch method present, returning
an opaque host value. -/
def wFramework (tag : Nat) : Framework :=
  { methods := fun _ => some (fun _ => .hostVal tag)
    createInstance := some (fun _ _ _ _ _ => .hostVal tag) }

/-- Backend stub with no methods at all (absent `destroyInstance` etc.). -/
def wFrameworkBare : Framework :=
  { methods := fun _ => none
    createInstance := none }

/-- Backend stub implementing only the instance methods, not the
registration fan-out methods. -/
def wFrameworkNoReg : Framework :=
  { methods := fun m =>
      match m with
      | .registerComponents => none
      | .registerModules => none
      | .registerMethods => none
      | _ => some (fun _ => .hostVal 9)
    createInstance := some (fun _ _ _ _ _ => .hostVal 9) }

/-- Service with all three hooks. -/
def wService1 : Service :=
  ⟨"s1", ⟨some (fun _ _ _ => .obj [("x", .num "1")]),
    some (fun _ _ => ()), some (fun _ _ => ())⟩⟩

/-- Service with only a refresh hook. -/
def wService2 : Service :=
  ⟨"s2", ⟨none, some (fun _ _ => ()), none⟩⟩

/-- Environment with `Weex` and `Rax` registered and two services. -/
def wEnv : Env :=
  { frameworks := [("Weex", wFramework 0), ("Rax", wFramework 1)]
    services := [wService1, wService2]
    wxEnvironment := .obj [("platform", .str "Web")] }

/-- Environment with only the default backend `Weex` registered. -/
def wEnvNoRax : Env :=
  { frameworks := [("Weex", wFramework 0)]
    services := [wService1, wService2]
    wxEnvironment := .obj [("platform", .str "Web")] }

/-- Environment whose sole backend lacks every dispatch method. -/
def wEnvBare : Env :=
  { frameworks := [("Weex", wFrameworkBare)]
    services := [wService1, wService2]
    wxEnvironment := .obj [] }

/-- An instance record bound to `Weex`. -/
def wRecord : JTree := .obj [("framework", .str "Weex"), ("created", .num "5")]

/-- A registry holding `i1` bound to `Weex`. -/
def wState : RuntimeState := ⟨[("i1", wRecord)]⟩

/-- An instance record bound to a framework name absent from every witness
environment. -/
def wRecordGone : JTree := .obj [("framework", .str "Gone"), ("created", .num "5")]

/-- A registry holding `i2` bound to the unregistered framework `Gone`. -/
def wStateGone : RuntimeState := ⟨[("i2", wRecordGone)]⟩

/-- The example bundle text of the spec: a header comment declaring
framework `Rax` version `1.0`. -/
def raxBundle : String :=
  "// \x7b\"framework\":\"Rax\",\"version\":\"1.0\"\x7d\nrest of bundle"

/-- Bundle text with no leading comment. -/
def plainBundle : String := "plain bundle text\nsecond line"

/-- Bundle text whose header comment holds malformed JSON. -/
def badJsonBundle : String := "// \x7b\"framework\":\x7d\nrest of bundle"

/-- Whether a call-level value is a JS array (`Array.isArray`). -/
def isJsArray (v : Value) : Bool :=
  match v with
  | .tree (.arr _) => true
  | _ => false

/-- Detector as claim C5 words it, for comparison with the code's
`checkVersion`: inspect only the first line of the bundle text, and return
the parsed JSON exactly when that line is a comment containing a single
JSON object.  (This is the one definition written from the claim rather
than from the source; `checkVersion` above is the code's behavior.) -/
def claimedFirstLineDetector (code : String) : Option JTree :=
  let line := code.toList.takeWhile (fun c => c ≠ '\n' ∧ c ≠ '\r')
  match line.dropWhile isJsSpace with
  | '/' :: '/' :: rest =>
    match jsonParse rest with
    | some (.obj fs) => some (.obj fs)
    | _ => none
  | _ => none

/-! Helper lemmas shared by several claim theorems. -/

theorem find?_filter_ne (l : List (String × JTree)) (k : String) :
    (l.filter (fun p => p.1 != k)).find? (fun p => p.1 == k) = none := by
  induction l with
  | nil => rfl
  | cons p rest ih =>
    by_cases h : p.1 = k
    · simp [List.filter_cons, h, ih]
    · simp [List.filter_cons, List.find?_cons, h, ih]

/-- Deleting the record for a key makes its lookup fail. -/
theorem lookupReg_filter_self (st : RuntimeState) (k : String) :
    lookupReg ⟨st.instanceMap.filter (fun p => p.1 != k)⟩ k = none := by
  simp [lookupReg, find?_filter_ne]

/-- Router behavior for an id with no record: error value, no state change,
no events. -/
theorem router_unknown_id (env : Env) (m : MethodName) (st : RuntimeState)
    (args : List Value)
    (h : lookupReg st (valueToKey (args.headD (.tree .undefined))) = none) :
    genInstanceCall env m st args =
      (.ok (invalidInstanceError (valueToKey (args.headD (.tree .undefined)))), st, []) := by
  have h2 : lookupReg st (valueToKey (args.head?.getD (.tree .undefined))) = none := by
    simpa using h
  simp [genInstanceCall, h2]

/-- Legacy-alias behavior for an id with no record. -/
theorem adapt_unknown_id (env : Env) (m : MethodName) (st : RuntimeState)
    (args : List Value)
    (h : lookupReg st (valueToKey (args.headD (.tree .undefined))) = none) :
    adaptCall env m st args =
      (.ok (invalidInstanceError (valueToKey (args.headD (.tree .undefined)))), st, []) := by
  have h2 : lookupReg st (valueToKey (args.head?.getD (.tree .undefined))) = none := by
    simpa using h
  simp [adaptCall, h2]

/-- Router behavior when the record's framework is not registered. -/
theorem router_no_framework (env : Env) (m : MethodName) (st : RuntimeState)
    (args : List Value) (info : JTree)
    (h : lookupReg st (valueToKey (args.headD (.tree .undefined))) = some info)
    (hfw : lookupFw env.frameworks (jsToString (getField info "framework")) = none) :
    genInstanceCall env m st args =
      (.ok (invalidInstanceError (valueToKey (args.headD (.tree .undefined)))), st, []) := by
  have h2 : lookupReg st (valueToKey (args.head?.getD (.tree .undefined))) = some info := by
    simpa using h
  simp [genInstanceCall, h2, hfw]

/-- Legacy-alias behavior when the record's framework is not registered. -/
theorem adapt_no_framework (env : Env) (m : MethodName) (st : RuntimeState)
    (args : List Value) (info : JTree)
    (h : lookupReg st (valueToKey (args.headD (.tree .undefined))) = some info)
    (hfw : lookupFw env.frameworks (jsToString (getField info "framework")) = none) :
    adaptCall env m st args =
      (.ok (invalidInstanceError (valueToKey (args.headD (.tree .undefined)))), st, []) := by
  have h2 : lookupReg st (valueToKey (args.head?.getD (.tree .undefined))) = some info := by
    simpa using h
  simp [adaptCall, h2, hfw]

/-- Claim C2: a `createInstance` call for an id whose record exists returns
the `invalid instance id` error value (not a thrown exception), leaves the
whole registry — in particular the existing record — unchanged, and invokes
no backend method and no service hook (the event trace is empty). -/
theorem createInstance_duplicate_rejected (env : Env) (now : Nat)
    (st : RuntimeState) (id : Value) (code : String) (config : JTree)
    (data : Value) (r : JTree)
    (h : lookupReg st (valueToKey id) = some r) :
    createInstance env now st id code config data =
      (.ok (invalidInstanceError (valueToKey id)), st, []) := by
  simp [createInstance, h]

/-- Witness for C2: a concrete duplicate creation. -/
theorem createInstance_duplicate_rejected_witness :
    lookupReg wState "i1" = some wRecord ∧
    createInstance wEnv 7 wState (.tree (.str "i1")) raxBundle
        (.obj [("opt", .bool true)]) (.tree .null) =
      (.ok (invalidInstanceError "i1"), wState, []) :=
  ⟨rfl, createInstance_duplicate_rejected wEnv 7 wState (.tree (.str "i1"))
    raxBundle (.obj [("opt", .bool true)]) (.tree .null) wRecord rfl⟩

/-- Claim C3: every instance-routed entry point (`destroyInstance`,
`refreshInstance`, `receiveTasks`, `getRoot` — the theorem covers every
method name the router could be generated for) and the legacy alias
(`callJS`, wired to `receiveTasks`) called with an id that has no record
returns the `invalid instance id` error value, leaves the registry
unchanged, and invokes no backend method and no service hook. -/
theorem routed_calls_unknown_id_rejected (env : Env) (m : MethodName)
    (st : RuntimeState) (args : List Value)
    (h : lookupReg st (valueToKey (args.headD (.tree .undefined))) = none) :
    genInstanceCall env m st args =
      (.ok (invalidInstanceError (valueToKey (args.headD (.tree .undefined)))), st, []) ∧
    adaptCall env m st args =
      (.ok (invalidInstanceError (valueToKey (args.headD (.tree .undefined)))), st, []) :=
  ⟨router_unknown_id env m st args h, adapt_unknown_id env m st args h⟩

/-- Witness for C3: a never-created id, routed through `receiveTasks` (the
method `callJS` aliases). -/
theorem routed_calls_unknown_id_rejected_witness :
    genInstanceCall wEnv .receiveTasks wState [.tree (.str "ghost")] =
      (.ok (invalidInstanceError "ghost"), wState, []) ∧
    adaptCall wEnv .receiveTasks wState [.tree (.str "ghost")] =
      (.ok (invalidInstanceError "ghost"), wState, []) :=
  routed_calls_unknown_id_rejected wEnv .receiveTasks wState
    [.tree (.str "ghost")] rfl

/-- Claim C9: when an id's record exists but names a framework absent from
the registry at call time, every instance-routed entry point and the legacy
alias return the `invalid instance id` error value without delegating:
the framework's presence is re-checked on each routed call. -/
theorem routed_calls_missing_framework_rejected (env : Env) (m : MethodName)
    (st : RuntimeState) (args : List Value) (info : JTree)
    (h : lookupReg st (valueToKey (args.headD (.tree .undefined))) = some info)
    (hfw : lookupFw env.frameworks (jsToString (getField info "framework")) = none) :
    genInstanceCall env m st args =
      (.ok (invalidInstanceError (valueToKey (args.headD (.tree .undefined)))), st, []) ∧
    adaptCall env m st args =
      (.ok (invalidInstanceError (valueToKey (args.headD (.tree .undefined)))), st, []) :=
  ⟨router_no_framework env m st args info h hfw,
    adapt_no_framework env m st args info h hfw⟩

/-- Witness for C9: a record bound to the unregistered framework `Gone`. -/
theorem routed_calls_missing_framework_rejected_witness :
    genInstanceCall wEnv .receiveTasks wStateGone [.tree (.str "i2")] =
      (.ok (invalidInstanceError "i2"), wStateGone, []) ∧
    adaptCall wEnv .receiveTasks wStateGone [.tree (.str "i2")] =
      (.ok (invalidInstanceError "i2"), wStateGone, []) :=
  routed_calls_missing_framework_rejected wEnv .receiveTasks wStateGone
    [.tree (.str "i2")] wRecordGone rfl rfl

/-- Router behavior for `destroyInstance` when the backend implements it:
result is whatever the backend returned, the record is deleted, and the
backend call is followed by the destroy hooks of every service that has
one, in registration order. -/
theorem router_destroy_present (env : Env) (st : RuntimeState)
    (args : List Value) (info : JTree) (fw : Framework)
    (f : List Value → Value)
    (h : lookupReg st (valueToKey (args.headD (.tree .undefined))) = some info)
    (hfw : lookupFw env.frameworks (jsToString (getField info "framework")) = some fw)
    (hf : fw.methods .destroyInstance = some f) :
    genInstanceCall env .destroyInstance st args =
      (.ok (f args),
        ⟨st.instanceMap.filter
          (fun p => p.1 != valueToKey (args.headD (.tree .undefined)))⟩,
        Event.backendCall (jsToString (getField info "framework"))
            .destroyInstance args ::
          destroyHookEvents env.services (valueToKey (args.headD (.tree .undefined)))) := by
  have h2 : lookupReg st (valueToKey (args.head?.getD (.tree .undefined))) = some info := by
    simpa using h
  simp [genInstanceCall, h2, hfw, hf]

/-- Router behavior for `refreshInstance` when the backend implements it:
result is whatever the backend returned, the registry is unchanged, and the
backend call is followed by the refresh hooks of every service that has
one, in registration order. -/
theorem router_refresh_present (env : Env) (st : RuntimeState)
    (args : List Value) (info : JTree) (fw : Framework)
    (f : List Value → Value)
    (h : lookupReg st (valueToKey (args.headD (.tree .undefined))) = some info)
    (hfw : lookupFw env.frameworks (jsToString (getField info "framework")) = some fw)
    (hf : fw.methods .refreshInstance = some f) :
    genInstanceCall env .refreshInstance st args =
      (.ok (f args), st,
        Event.backendCall (jsToString (getField info "framework"))
            .refreshInstance args ::
          refreshHookEvents env.services (valueToKey (args.headD (.tree .undefined)))) := by
  have h2 : lookupReg st (valueToKey (args.head?.getD (.tree .undefined))) = some info := by
    simpa using h
  simp [genInstanceCall, h2, hfw, hf]

/-- Counterexample to claim C1 as stated: `i1` is live and bound to a
backend whose `destroyInstance` method is absent; calling `destroyInstance`
throws a `TypeError` (the unguarded call on `undefined`), the registry
still holds the record afterwards — the id is not removed — and no service
destroy hook ran. -/
theorem destroyInstance_absent_method_counterexample :
    genInstanceCall wEnvBare .destroyInstance wState [.tree (.str "i1")] =
      (.error (.typeError "framework method is not a function"), wState, []) ∧
    lookupReg wState "i1" = some wRecord ∧
    (wEnvBare.services.map (fun s => (s.options.destroy).isSome)) = [true, false] :=
  ⟨rfl, rfl, rfl⟩

/-- Claim C1 (amended): for a live id whose backend implements
`destroyInstance`, the call removes the record from the registry whatever
value the backend returns (an error value included) — after the backend
delegation and the service destroy hooks — and every later routed or
legacy-alias call with that id then returns the `invalid instance id`
error value.  When the backend method is absent the call instead throws
before deletion and the record survives (see the counterexample). -/
theorem destroyInstance_removes_record_amended (env : Env) (st : RuntimeState)
    (args : List Value) (info : JTree) (fw : Framework)
    (f : List Value → Value)
    (h : lookupReg st (valueToKey (args.headD (.tree .undefined))) = some info)
    (hfw : lookupFw env.frameworks (jsToString (getField info "framework")) = some fw)
    (hf : fw.methods .destroyInstance = some f) :
    genInstanceCall env .destroyInstance st args =
      (.ok (f args),
        ⟨st.instanceMap.filter
          (fun p => p.1 != valueToKey (args.headD (.tree .undefined)))⟩,
        Event.backendCall (jsToString (getField info "framework"))
            .destroyInstance args ::
          destroyHookEvents env.services (valueToKey (args.headD (.tree .undefined)))) ∧
    lookupReg
      ⟨st.instanceMap.filter
        (fun p => p.1 != valueToKey (args.headD (.tree .undefined)))⟩
      (valueToKey (args.headD (.tree .undefined))) = none ∧
    (∀ (env2 : Env) (m2 : MethodName) (args2 : List Value),
      valueToKey (args2.headD (.tree .undefined)) =
        valueToKey (args.headD (.tree .undefined)) →
      genInstanceCall env2 m2
          ⟨st.instanceMap.filter
            (fun p => p.1 != valueToKey (args.headD (.tree .undefined)))⟩ args2 =
        (.ok (invalidInstanceError (valueToKey (args2.headD (.tree .undefined)))),
          ⟨st.instanceMap.filter
            (fun p => p.1 != valueToKey (args.headD (.tree .undefined)))⟩, []) ∧
      adaptCall env2 m2
          ⟨st.instanceMap.filter
            (fun p => p.1 != valueToKey (args.headD (.tree .undefined)))⟩ args2 =
        (.ok (invalidInstanceError (valueToKey (args2.headD (.tree .undefined)))),
          ⟨st.instanceMap.filter
            (fun p => p.1 != valueToKey (args.headD (.tree .undefined)))⟩, [])) := by
  refine ⟨router_destroy_present env st args info fw f h hfw hf,
    lookupReg_filter_self st (valueToKey (args.headD (.tree .undefined))), ?_⟩
  intro env2 m2 args2 hkey
  have hnone : lookupReg
      ⟨st.instanceMap.filter
        (fun p => p.1 != valueToKey (args.headD (.tree .undefined)))⟩
      (valueToKey (args2.headD (.tree .undefined))) = none := by
    rw [hkey]
    exact lookupReg_filter_self st (valueToKey (args.headD (.tree .undefined)))
  exact ⟨router_unknown_id env2 m2 _ args2 hnone,
    adapt_unknown_id env2 m2 _ args2 hnone⟩

/-- Witness for the amended C1: a concrete destroy on a live instance whose
backend returns normally; the record is gone and a later `getRoot` and
legacy call are rejected. -/
theorem destroyInstance_removes_record_amended_witness :
    genInstanceCall wEnv .destroyInstance wState [.tree (.str "i1")] =
      (.ok (.hostVal 0), ⟨[]⟩,
        [.backendCall "Weex" .destroyInstance [.tree (.str "i1")],
          .serviceHook "s1" .destroy "i1"]) ∧
    lookupReg ⟨[]⟩ "i1" = none ∧
    genInstanceCall wEnv .getRoot ⟨[]⟩ [.tree (.str "i1")] =
      (.ok (invalidInstanceError "i1"), ⟨[]⟩, []) ∧
    adaptCall wEnv .getRoot ⟨[]⟩ [.tree (.str "i1")] =
      (.ok (invalidInstanceError "i1"), ⟨[]⟩, []) := by
  have h := destroyInstance_removes_record_amended wEnv wState
    [.tree (.str "i1")] wRecord (wFramework 0) (fun _ => .hostVal 0) rfl rfl rfl
  exact ⟨h.1, h.2.1, (h.2.2 wEnv .getRoot [.tree (.str "i1")] rfl).1,
    (h.2.2 wEnv .getRoot [.tree (.str "i1")] rfl).2⟩

/-- Counterexample to claim C4 as stated: `i1` is live, both services carry
a refresh hook, yet `refreshInstance` invokes no hook at all — the backend
lacks the method, so the delegation throws before the hook loop. -/
theorem refresh_hooks_not_run_counterexample :
    genInstanceCall wEnvBare .refreshInstance wState [.tree (.str "i1")] =
      (.error (.typeError "framework method is not a function"), wState, []) ∧
    (wEnvBare.services.map (fun s => (s.options.refresh).isSome)) = [true, true] :=
  ⟨rfl, rfl⟩

/-- Claim C4 (amended): for a live id whose backend implements the invoked
lifecycle method, `refreshInstance` (resp. `destroyInstance`) invokes the
refresh (resp. destroy) hook of exactly the services carrying one, exactly
once each, in registration order, immediately after the backend delegation
event, and this is independent of the value the backend call returns;
services without the hook are skipped.  If the backend method is absent the
delegation throws and no hook runs (see the counterexample). -/
theorem lifecycle_hooks_after_backend_amended (env : Env) (st : RuntimeState)
    (args : List Value) (info : JTree) (fw : Framework)
    (f : List Value → Value) (m : MethodName)
    (h : lookupReg st (valueToKey (args.headD (.tree .undefined))) = some info)
    (hfw : lookupFw env.frameworks (jsToString (getField info "framework")) = some fw)
    (hf : fw.methods m = some f)
    (hm : m = .refreshInstance ∨ m = .destroyInstance) :
    genInstanceCall env m st args =
      (.ok (f args),
        if m = .destroyInstance then
          ⟨st.instanceMap.filter
            (fun p => p.1 != valueToKey (args.headD (.tree .undefined)))⟩
        else st,
        Event.backendCall (jsToString (getField info "framework")) m args ::
          env.services.filterMap (fun s =>
            (if m = .refreshInstance then s.options.refresh else s.options.destroy).map
              (fun _ => Event.serviceHook s.name
                (if m = .refreshInstance then .refresh else .destroy)
                (valueToKey (args.headD (.tree .undefined)))))) := by
  rcases hm with hm | hm <;> subst hm
  · simpa [refreshHookEvents] using
      router_refresh_present env st args info fw f h hfw hf
  · simpa [destroyHookEvents] using
      router_destroy_present env st args info fw f h hfw hf

/-- Witness for the amended C4: a concrete refresh; the backend event comes
first, then `s1` and `s2` refresh hooks in registration order, and the
registry is untouched. -/
theorem lifecycle_hooks_after_backend_amended_witness :
    genInstanceCall wEnv .refreshInstance wState [.tree (.str "i1")] =
      (.ok (.hostVal 0), wState,
        [.backendCall "Weex" .refreshInstance [.tree (.str "i1")],
          .serviceHook "s1" .refresh "i1",
          .serviceHook "s2" .refresh "i1"]) := by
  have h := lifecycle_hooks_after_backend_amended wEnv wState
    [.tree (.str "i1")] wRecord (wFramework 0) (fun _ => .hostVal 0)
    .refreshInstance rfl rfl rfl (Or.inl rfl)
  simpa using h

/-- Claim C6: bundle-header binding, concretely.  (i) With `Rax` registered,
the example header binds the instance to `Rax` and the stored snapshot has
`bundleVersion = "1.0"`; (ii) with `Rax` unregistered, the same text binds
to the default backend `Weex`; (iii) text with no leading comment, and
(iv) text with invalid JSON in the comment, bind to `Weex` with
`bundleVersion = undefined`. -/
theorem createInstance_header_binding :
    createInstance wEnv 7 ⟨[]⟩ (.tree (.str "i1")) raxBundle
        (.obj [("opt", .bool true)]) (.tree .null) =
      (.ok (.hostVal 1),
        ⟨[("i1", .obj [("framework", .str "Rax"), ("version", .str "1.0"),
            ("created", .num "7")])]⟩,
        [.serviceHook "s1" .create "i1",
          .backendCreate "Rax" "i1"
            (.obj [("opt", .bool true), ("bundleVersion", .str "1.0"),
              ("env", .obj [("platform", .str "Web")])])
            (.obj [("x", .num "1")])]) ∧
    createInstance wEnvNoRax 7 ⟨[]⟩ (.tree (.str "i1")) raxBundle
        (.obj [("opt", .bool true)]) (.tree .null) =
      (.ok (.hostVal 0),
        ⟨[("i1", .obj [("framework", .str "Weex"), ("version", .str "1.0"),
            ("created", .num "7")])]⟩,
        [.serviceHook "s1" .create "i1",
          .backendCreate "Weex" "i1"
            (.obj [("opt", .bool true), ("bundleVersion", .str "1.0"),
              ("env", .obj [("platform", .str "Web")])])
            (.obj [("x", .num "1")])]) ∧
    createInstance wEnv 7 ⟨[]⟩ (.tree (.str "i1")) plainBundle
        (.obj [("opt", .bool true)]) (.tree .null) =
      (.ok (.hostVal 0),
        ⟨[("i1", .obj [("framework", .str "Weex"), ("created", .num "7")])]⟩,
        [.serviceHook "s1" .create "i1",
          .backendCreate "Weex" "i1"
            (.obj [("opt", .bool true), ("bundleVersion", .undefined),
              ("env", .obj [("platform", .str "Web")])])
            (.obj [("x", .num "1")])]) ∧
    createInstance wEnv 7 ⟨[]⟩ (.tree (.str "i1")) badJsonBundle
        (.obj [("opt", .bool true)]) (.tree .null) =
      (.ok (.hostVal 0),
        ⟨[("i1", .obj [("framework", .str "Weex"), ("created", .num "7")])]⟩,
        [.serviceHook "s1" .create "i1",
          .backendCreate "Weex" "i1"
            (.obj [("opt", .bool true), ("bundleVersion", .undefined),
              ("env", .obj [("platform", .str "Web")])])
            (.obj [("x", .num "1")])]) :=
  ⟨rfl, rfl, rfl, rfl⟩

/-- After updating an existing key, lookup finds the written pair. -/
theorem find?_map_update (fs : List (String × JTree)) (k : String) (v : JTree)
    (h : fs.any (fun p => p.1 == k) = true) :
    (fs.map (fun p => if p.1 == k then (k, v) else p)).find?
      (fun p => p.1 == k) = some (k, v) := by
  induction fs with
  | nil => simp at h
  | cons p rest ih =>
    rw [List.map_cons]
    by_cases hp : p.1 = k
    · rw [if_pos (by simp [hp])]
      exact List.find?_cons_of_pos _ (by simp)
    · rw [if_neg (by simp [hp]), List.find?_cons_of_neg _ (by simp [hp])]
      exact ih (by simpa [List.any_cons, hp] using h)

/-- Lookup of a key other than the one updated is unchanged. -/
theorem find?_map_update_ne (fs : List (String × JTree)) (k k' : String)
    (v : JTree) (h : k' ≠ k) :
    (fs.map (fun p => if p.1 == k' then (k', v) else p)).find?
      (fun p => p.1 == k) = fs.find? (fun p => p.1 == k) := by
  induction fs with
  | nil => rfl
  | cons p rest ih =>
    rw [List.map_cons]
    by_cases hp : p.1 = k'
    · have hpk : ¬ p.1 = k := fun hk => h (hp ▸ hk)
      rw [if_pos (by simp [hp])]
      rw [List.find?_cons_of_neg _ (by simp [h]),
        List.find?_cons_of_neg _ (by simp [hpk])]
      exact ih
    · rw [if_neg (by simp [hp])]
      by_cases hpk : p.1 = k
      · rw [List.find?_cons_of_pos _ (by simp [hpk]),
          List.find?_cons_of_pos _ (by simp [hpk])]
      · rw [List.find?_cons_of_neg _ (by simp [hpk]),
          List.find?_cons_of_neg _ (by simp [hpk])]
        exact ih

/-- Reading a key right after writing it yields the written value. -/
theorem getField_setField_self (fs : List (String × JTree)) (k : String)
    (v : JTree) :
    getField (setField (.obj fs) k v) k = v := by
  by_cases h : fs.any (fun p => p.1 == k)
  · simp only [setField, if_pos h, getField, find?_map_update fs k v h]
  · have hn : fs.find? (fun p => p.1 == k) = none := by
      rw [List.find?_eq_none]
      intro x hx hxk
      exact h (List.any_eq_true.mpr ⟨x, hx, hxk⟩)
    simp only [setField, if_neg h, getField, List.find?_append, hn,
      Option.none_or]
    rw [List.find?_cons_of_pos _ (by simp)]

/-- Reading any other key is unaffected by a write. -/
theorem getField_setField_ne (t : JTree) (k k' : String) (v : JTree)
    (h : k' ≠ k) :
    getField (setField t k' v) k = getField t k := by
  cases t with
  | obj fs =>
    by_cases ha : fs.any (fun p => p.1 == k')
    · simp only [setField, if_pos ha, getField, find?_map_update_ne fs k k' v h]
    · simp only [setField, if_neg ha, getField, List.find?_append]
      rw [List.find?_cons_of_neg _ (by simp [h])]
      cases fs.find? (fun p => p.1 == k) <;> rfl
  | undefined => rfl
  | null => rfl
  | bool b => rfl
  | num s => rfl
  | str s => rfl
  | arr es => rfl

/-- A write on an object yields an object. -/
theorem setField_obj (fs : List (String × JTree)) (k : String) (v : JTree) :
    ∃ gs, setField (.obj fs) k v = .obj gs := by
  by_cases h : fs.any (fun p => p.1 == k)
  · refine ⟨fs.map (fun p => if p.1 == k then (k, v) else p), ?_⟩
    simp only [setField, if_pos h]
  · refine ⟨fs ++ [(k, v)], ?_⟩
    simp only [setField, if_neg h]

/-- A defined property read forces the value to be an object. -/
theorem getField_ne_undef_obj (t : JTree) (k : String)
    (h : getField t k ≠ .undefined) : ∃ fs, t = .obj fs := by
  cases t with
  | obj fs => exact ⟨fs, rfl⟩
  | undefined => exact absurd rfl h
  | null => exact absurd rfl h
  | bool b => exact absurd rfl h
  | num s => exact absurd rfl h
  | str s => exact absurd rfl h
  | arr es => exact absurd rfl h

/-- Lookup after inserting a fresh key at the end. -/
theorem lookupReg_append_self (st : RuntimeState) (k : String) (v : JTree)
    (h : lookupReg st k = none) :
    lookupReg ⟨st.instanceMap ++ [(k, v)]⟩ k = some v := by
  have hfind : st.instanceMap.find? (fun p => p.1 == k) = none := by
    simpa [lookupReg] using h
  simp only [lookupReg, List.find?_append, hfind, Option.none_or]
  rw [List.find?_cons_of_pos _ (by simp)]
  rfl

/-- Claim C10: when the bundle header declares a framework that is not
registered, `createInstance` falls back to the default backend `Weex` but
keeps the declared version: the record keeps `version`, and the
configuration snapshot handed to the backend carries
`bundleVersion = <declared version>`, not `undefined`. -/
theorem createInstance_fallback_keeps_version
    (env : Env) (now : Nat) (st : RuntimeState) (id : Value) (code : String)
    (config : JTree) (data : Value) (info0 : JTree) (name v : String)
    (fwWeex : Framework)
    (f : Value → String → JTree → Value → JTree → Value)
    (hreg : lookupReg st (valueToKey id) = none)
    (hcv : checkVersion code = some info0)
    (hfr : getField info0 "framework" = .str name)
    (hnofw : lookupFw env.frameworks name = none)
    (hver : getField info0 "version" = .str v)
    (hweex : lookupFw env.frameworks "Weex" = some fwWeex)
    (hcr : fwWeex.createInstance = some f)
    (hcfg : jsTruthy config = false ∨ ∃ cf, config = .obj cf) :
    ∃ record snapshot serviceObjects svcEvents,
      (createInstance env now st id code config data).2.1.instanceMap =
        st.instanceMap ++ [(valueToKey id, record)] ∧
      getField record "framework" = .str "Weex" ∧
      getField record "version" = .str v ∧
      (createInstance env now st id code config data).2.2 =
        svcEvents ++
          [.backendCreate "Weex" (valueToKey id) snapshot serviceObjects] ∧
      getField snapshot "bundleVersion" = .str v := by
  obtain ⟨fs0, hobj0⟩ := getField_ne_undef_obj info0 "framework"
    (by rw [hfr]; intro hc; cases hc)
  have hjs0 : jsToString (getField info0 "framework") = name := by
    rw [hfr]; rfl
  have hfr1 : getField
      (setField (setField info0 "framework" (.str "Weex")) "created"
        (.num (toString now))) "framework" = .str "Weex" := by
    rw [getField_setField_ne _ _ _ _ (by decide)]
    rw [hobj0]
    exact getField_setField_self fs0 "framework" (.str "Weex")
  have hver1 : getField
      (setField (setField info0 "framework" (.str "Weex")) "created"
        (.num (toString now))) "version" = .str v := by
    rw [getField_setField_ne _ _ _ _ (by decide),
      getField_setField_ne _ _ _ _ (by decide)]
    exact hver
  have hjs1 : jsToString (getField
      (setField (setField info0 "framework" (.str "Weex")) "created"
        (.num (toString now))) "framework") = "Weex" := by
    rw [hfr1]; rfl
  simp only [createInstance, hreg, hcv, Option.getD_some, hjs0, hnofw,
    Option.isNone_none, if_pos, hjs1, hweex, hcr]
  refine ⟨_, _, _, _, rfl, hfr1, hver1, rfl, ?_⟩
  rw [getField_setField_ne _ _ _ _ (by decide), hver1]
  rcases hcfg with hcfg | ⟨cf, hcfg⟩
  · simp only [hcfg, Bool.false_eq_true, if_neg, jsonRoundTrip,
      Option.getD_some]
    exact getField_setField_self _ _ _
  · subst hcfg
    simp only [jsTruthy, if_pos, jsonRoundTrip, Option.getD_some]
    exact getField_setField_self _ _ _

/-- Witness for C10: the `Rax` header with only `Weex` registered. -/
theorem createInstance_fallback_keeps_version_witness :
    ∃ record snapshot serviceObjects svcEvents,
      (createInstance wEnvNoRax 7 ⟨[]⟩ (.tree (.str "i1")) raxBundle
          (.obj [("opt", .bool true)]) (.tree .null)).2.1.instanceMap =
        ([] : List (String × JTree)) ++ [("i1", record)] ∧
      getField record "framework" = .str "Weex" ∧
      getField record "version" = .str "1.0" ∧
      (createInstance wEnvNoRax 7 ⟨[]⟩ (.tree (.str "i1")) raxBundle
          (.obj [("opt", .bool true)]) (.tree .null)).2.2 =
        svcEvents ++ [.backendCreate "Weex" "i1" snapshot serviceObjects] ∧
      getField snapshot "bundleVersion" = .str "1.0" :=
  createInstance_fallback_keeps_version wEnvNoRax 7 ⟨[]⟩ (.tree (.str "i1"))
    raxBundle (.obj [("opt", .bool true)]) (.tree .null)
    (.obj [("framework", .str "Rax"), ("version", .str "1.0")]) "Rax" "1.0"
    (wFramework 0) (fun _ _ _ _ _ => .hostVal 0)
    rfl rfl rfl rfl rfl rfl rfl (Or.inr ⟨[("opt", .bool true)], rfl⟩)

/-- Claim C8: `registerComponents` with an array argument emits exactly one
element-type registration, in order, for every entry that is truthy with
truthy `type` and `methods` fields (anything else is skipped without
error), and then calls `registerComponents` on exactly the backends that
implement it, in registry order; a non-array argument performs no
element-type registration and only the backend fan-out. -/
theorem registerComponents_fanout (env : Env) (rest : List Value) :
    (∀ entries : List JTree,
      genInitCall env .registerComponents (.tree (.arr entries) :: rest) =
        entries.filterMap (fun e =>
          if jsTruthy e && jsTruthy (getField e "type") &&
              jsTruthy (getField e "methods")
          then some (Event.registerElement (getField e "type")
            (getField e "methods"))
          else none) ++
        env.frameworks.filterMap (fun p =>
          (p.2.methods .registerComponents).map
            (fun _ => Event.backendCall p.1 .registerComponents
              (.tree (.arr entries) :: rest)))) ∧
    (∀ w : Value, isJsArray w = false →
      genInitCall env .registerComponents (w :: rest) =
        env.frameworks.filterMap (fun p =>
          (p.2.methods .registerComponents).map
            (fun _ => Event.backendCall p.1 .registerComponents (w :: rest)))) := by
  refine ⟨fun entries => rfl, fun w hw => ?_⟩
  cases w with
  | tree t =>
    cases t with
    | arr es => simp [isJsArray] at hw
    | undefined => rfl
    | null => rfl
    | bool b => rfl
    | num s => rfl
    | str s => rfl
    | obj fs => rfl
  | errObj m => rfl
  | hostVal n => rfl

/-- Witness for C8: the spec's example entry registers `bar` under `Foo`
exactly once, a malformed entry is skipped, the backend lacking
`registerComponents` is skipped; a non-array argument registers nothing. -/
theorem registerComponents_fanout_witness :
    genInitCall
        { frameworks := [("Weex", wFramework 0), ("NoReg", wFrameworkNoReg)],
          services := [], wxEnvironment := .obj [] }
        .registerComponents
        [.tree (.arr [.obj [("type", .str "Foo"), ("methods", .arr [.str "bar"])],
          .str "junk"])] =
      [.registerElement (.str "Foo") (.arr [.str "bar"]),
        .backendCall "Weex" .registerComponents
          [.tree (.arr [.obj [("type", .str "Foo"), ("methods", .arr [.str "bar"])],
            .str "junk"])]] ∧
    genInitCall
        { frameworks := [("Weex", wFramework 0), ("NoReg", wFrameworkNoReg)],
          services := [], wxEnvironment := .obj [] }
        .registerComponents [.tree .null] =
      [.backendCall "Weex" .registerComponents [.tree .null]] :=
  ⟨(registerComponents_fanout
      { frameworks := [("Weex", wFramework 0), ("NoReg", wFrameworkNoReg)],
        services := [], wxEnvironment := .obj [] } []).1
    [.obj [("type", .str "Foo"), ("methods", .arr [.str "bar"])], .str "junk"],
    (registerComponents_fanout
      { frameworks := [("Weex", wFramework 0), ("NoReg", wFrameworkNoReg)],
        services := [], wxEnvironment := .obj [] } []).2 (.tree .null) rfl⟩

theorem dropWhile_eq_cons_decomp (p : Char → Bool) (l : List Char) (a : Char)
    (l2 : List Char) (h : l.dropWhile p = a :: l2) :
    l = l.takeWhile p ++ a :: l2 ∧ (∀ c ∈ l.takeWhile p, p c = true) ∧
      p a = false := by
  refine ⟨?_, ?_, ?_⟩
  · conv_lhs => rw [← List.takeWhile_append_dropWhile p l]
    rw [h]
  · intro c hc
    exact List.mem_takeWhile_imp hc
  · have h2 := List.head?_dropWhile_not p l
    rw [h] at h2
    simpa using h2

/-- Characterization of the version regexp match as an explicit
decomposition of the input. -/
theorem versionMatch_eq_some_iff (cs cap : List Char) :
    versionMatch cs = some cap ↔
      ∃ ws sp1 inner sp2 nl rest,
        cs = ws ++ ('/' :: '/' ::
          (sp1 ++ (lbrace :: (inner ++ (rbrace :: (sp2 ++ (nl ++ rest))))))) ∧
        (∀ c ∈ ws, isJsSpace c = true) ∧
        (∀ c ∈ sp1, c = ' ') ∧
        (∀ c ∈ inner, c ≠ rbrace) ∧
        (∀ c ∈ sp2, c = ' ') ∧
        (nl = ['\n'] ∨ nl = ['\r', '\n']) ∧
        cap = lbrace :: (inner ++ [rbrace]) := by
  constructor
  · intro h
    unfold versionMatch at h
    split at h
    next r1 heq1 =>
      split at h
      next c r2 heq2 =>
        split at h
        next hc =>
          split at h
          next d r3 heq3 =>
            split at h
            next rest4 heq4 =>
              subst hc
              obtain ⟨e1, hws, -⟩ := dropWhile_eq_cons_decomp _ _ _ _ heq1
              obtain ⟨e2, hsp1, -⟩ := dropWhile_eq_cons_decomp _ _ _ _ heq2
              obtain ⟨e3, hinn, hd⟩ := dropWhile_eq_cons_decomp _ _ _ _ heq3
              obtain ⟨e4, hsp2, -⟩ := dropWhile_eq_cons_decomp _ _ _ _ heq4
              have hd2 : d = rbrace := by simpa using hd
              subst hd2
              simp only [Option.some.injEq] at h
              refine ⟨cs.takeWhile isJsSpace,
                r1.takeWhile (fun c => decide (c = ' ')), _,
                r3.takeWhile (fun x => decide (x = ' ')),
                ['\r', '\n'], rest4, ?_, hws, ?_, ?_, ?_, Or.inr rfl, h.symm⟩
              · conv_lhs => rw [e1, e2, e3, e4]
                rfl
              · intro c hcm
                simpa using hsp1 c hcm
              · intro c hcm
                simpa using hinn c hcm
              · intro c hcm
                simpa using hsp2 c hcm
            next rest4 heq4 =>
              subst hc
              obtain ⟨e1, hws, -⟩ := dropWhile_eq_cons_decomp _ _ _ _ heq1
              obtain ⟨e2, hsp1, -⟩ := dropWhile_eq_cons_decomp _ _ _ _ heq2
              obtain ⟨e3, hinn, hd⟩ := dropWhile_eq_cons_decomp _ _ _ _ heq3
              obtain ⟨e4, hsp2, -⟩ := dropWhile_eq_cons_decomp _ _ _ _ heq4
              have hd2 : d = rbrace := by simpa using hd
              subst hd2
              simp only [Option.some.injEq] at h
              refine ⟨cs.takeWhile isJsSpace,
                r1.takeWhile (fun c => decide (c = ' ')), _,
                r3.takeWhile (fun x => decide (x = ' ')),
                ['\n'], rest4, ?_, hws, ?_, ?_, ?_, Or.inl rfl, h.symm⟩
              · conv_lhs => rw [e1, e2, e3, e4]
                rfl
              · intro c hcm
                simpa using hsp1 c hcm
              · intro c hcm
                simpa using hinn c hcm
              · intro c hcm
                simpa using hsp2 c hcm
            next heq4 => cases h
          next heq3 => cases h
        next hc => cases h
      next heq2 => cases h
    next heq1 => cases h
  · rintro ⟨ws, sp1, inner, sp2, nl, rest, hcs, hws, hsp1, hinn, hsp2, hnl, hcap⟩
    subst hcs
    subst hcap
    have h1 : List.dropWhile isJsSpace
        (ws ++ ('/' :: '/' ::
          (sp1 ++ (lbrace :: (inner ++ (rbrace :: (sp2 ++ (nl ++ rest)))))))) =
        '/' :: '/' ::
          (sp1 ++ (lbrace :: (inner ++ (rbrace :: (sp2 ++ (nl ++ rest)))))) := by
      rw [List.dropWhile_append_of_pos (by intro a ha; exact hws a ha),
        List.dropWhile_cons_of_neg (by decide)]
    have h2 : List.dropWhile (fun c => decide (c = ' '))
        (sp1 ++ (lbrace :: (inner ++ (rbrace :: (sp2 ++ (nl ++ rest)))))) =
        lbrace :: (inner ++ (rbrace :: (sp2 ++ (nl ++ rest)))) := by
      rw [List.dropWhile_append_of_pos
          (by intro a ha; simpa using hsp1 a ha),
        List.dropWhile_cons_of_neg (by decide)]
    have h3t : List.takeWhile (fun x => decide (x ≠ rbrace))
        (inner ++ (rbrace :: (sp2 ++ (nl ++ rest)))) = inner := by
      rw [List.takeWhile_append_of_pos
          (by intro a ha; simpa using hinn a ha),
        List.takeWhile_cons_of_neg (by simp)]
      simp
    have h3d : List.dropWhile (fun x => decide (x ≠ rbrace))
        (inner ++ (rbrace :: (sp2 ++ (nl ++ rest)))) =
        rbrace :: (sp2 ++ (nl ++ rest)) := by
      rw [List.dropWhile_append_of_pos
          (by intro a ha; simpa using hinn a ha),
        List.dropWhile_cons_of_neg (by simp)]
    rcases hnl with hnl | hnl <;> subst hnl
    · have h4 : List.dropWhile (fun x => decide (x = ' '))
          (sp2 ++ (['\n'] ++ rest)) = '\n' :: rest := by
        rw [List.dropWhile_append_of_pos
            (by intro a ha; simpa using hsp2 a ha)]
        rw [show (['\n'] ++ rest : List Char) = '\n' :: rest from rfl]
        rw [List.dropWhile_cons_of_neg (by decide)]
      unfold versionMatch
      rw [h1]
      simp only [h2, h3t, h3d, h4]
      simp
    · have h4 : List.dropWhile (fun x => decide (x = ' '))
          (sp2 ++ (['\r', '\n'] ++ rest)) = '\r' :: '\n' :: rest := by
        rw [List.dropWhile_append_of_pos
            (by intro a ha; simpa using hsp2 a ha)]
        rw [show (['\r', '\n'] ++ rest : List Char) = '\r' :: '\n' :: rest from rfl]
        rw [List.dropWhile_cons_of_neg (by decide)]
      unfold versionMatch
      rw [h1]
      simp only [h2, h3t, h3d, h4]
      simp

/-- Claim C5 (amended): `checkVersion` returns a descriptor exactly when
the text, after leading JS whitespace that may span several lines, starts
with a line-comment holding a brace-delimited group with no closing brace
inside, terminated by optional spaces and a newline, and that group parses
as JSON; every other input — including one whose embedded JSON is malformed
— yields nothing, and no error propagates (the function is total).  The
detector is not restricted to the first line (leading blank lines are
skipped), and a first line that is such a comment but lacks a trailing
newline, contains a nested closing brace, or carries trailing text is not
matched (see the counterexample). -/
theorem checkVersion_eq_some_iff (code : String) (t : JTree) :
    checkVersion code = some t ↔
      ∃ ws sp1 inner sp2 nl rest,
        code.toList = ws ++ ('/' :: '/' ::
          (sp1 ++ (lbrace :: (inner ++ (rbrace :: (sp2 ++ (nl ++ rest))))))) ∧
        (∀ c ∈ ws, isJsSpace c = true) ∧
        (∀ c ∈ sp1, c = ' ') ∧
        (∀ c ∈ inner, c ≠ rbrace) ∧
        (∀ c ∈ sp2, c = ' ') ∧
        (nl = ['\n'] ∨ nl = ['\r', '\n']) ∧
        jsonParse (lbrace :: (inner ++ [rbrace])) = some t := by
  constructor
  · intro h
    unfold checkVersion at h
    split at h
    next cap heq =>
      obtain ⟨ws, sp1, inner, sp2, nl, rest, hcs, hws, hsp1, hinn, hsp2, hnl,
        hcap⟩ := (versionMatch_eq_some_iff _ _).mp heq
      subst hcap
      exact ⟨ws, sp1, inner, sp2, nl, rest, hcs, hws, hsp1, hinn, hsp2, hnl, h⟩
    next heq => cases h
  · rintro ⟨ws, sp1, inner, sp2, nl, rest, hcs, hws, hsp1, hinn, hsp2, hnl, hjson⟩
    have hv : versionMatch code.toList = some (lbrace :: (inner ++ [rbrace])) :=
      (versionMatch_eq_some_iff _ _).mpr
        ⟨ws, sp1, inner, sp2, nl, rest, hcs, hws, hsp1, hinn, hsp2, hnl, rfl⟩
    unfold checkVersion
    rw [hv]
    exact hjson

/-- Counterexample to claim C5 as stated: on text whose first line is empty
and whose second line is a JSON comment, `checkVersion` returns the parsed
object although the first line is no comment; and on a one-line bundle
whose first line is exactly a comment with a JSON object (no trailing
newline), `checkVersion` returns nothing although the claim demands the
parsed object. -/
theorem checkVersion_not_first_line_counterexample :
    checkVersion "\n// \x7b\"a\":1\x7d\nx" = some (.obj [("a", .num "1")]) ∧
    claimedFirstLineDetector "\n// \x7b\"a\":1\x7d\nx" = none ∧
    checkVersion "// \x7b\"a\":1\x7d" = none ∧
    claimedFirstLineDetector "// \x7b\"a\":1\x7d" = some (.obj [("a", .num "1")]) :=
  ⟨rfl, rfl, rfl, rfl⟩

namespace Heap

theorem storeClosedOn_spec (st : Store) (p : Nat → Bool)
    (h : storeClosedOn st p = true) :
    ∀ r o, p r = true → st.objs[r]? = some o → objInRegion p o = true := by
  intro r o hp hget
  have hr : r < st.objs.length := by
    by_contra hlt
    rw [List.getElem?_eq_none (Nat.le_of_not_lt hlt)] at hget
    cases hget
  have hmem := List.all_eq_true.mp h r (List.mem_range.mpr hr)
  rw [hget] at hmem
  simpa [hp] using hmem

theorem toTree_agree (p : Nat → Bool) (st st' : Store)
    (hcl : ∀ r o, p r = true → st.objs[r]? = some o → objInRegion p o = true)
    (hag : ∀ r, p r = true → st.objs[r]? = st'.objs[r]?) :
    ∀ (fuel : Nat) (v : HVal), valInRegion p v = true →
      toTree fuel st v = toTree fuel st' v := by
  intro fuel
  induction fuel with
  | zero => intro v _; rfl
  | succ fuel ih =>
    intro v hv
    cases v with
    | vundefined => rfl
    | vnull => rfl
    | vbool b => rfl
    | vnum s => rfl
    | vstr s => rfl
    | vref r =>
      have hp : p r = true := by simpa [valInRegion] using hv
      have hgeq := hag r hp
      simp only [toTree]
      rw [← hgeq]
      cases hobj : st.objs[r]? with
      | none => rfl
      | some o =>
        have hor := hcl r o hp hobj
        cases o with
        | obj fs =>
          have hall : ∀ x ∈ fs.map (fun q => q.2), valInRegion p x = true :=
            List.all_eq_true.mp (by simpa [objInRegion, fieldVals] using hor)
          simp only [Option.some.injEq]
          congr 1
          apply List.filterMap_congr
          intro q hq
          rw [ih q.2 (hall q.2 (List.mem_map_of_mem _ hq))]
        | arr es =>
          have hall : ∀ x ∈ es, valInRegion p x = true :=
            List.all_eq_true.mp (by simpa [objInRegion, fieldVals] using hor)
          simp only [Option.some.injEq]
          congr 1
          apply List.map_congr_left
          intro q hq
          rw [ih q (hall q hq)]

end Heap

namespace Heap

theorem fromTree_fold_arr (n fuel : Nat)
    (ih : ∀ (st : Store) (t : JTree), n ≤ st.objs.length → freshClosed n st →
      extendsFrom (fromTree fuel st t).1 st ∧
        freshClosed n (fromTree fuel st t).1 ∧
        valInRegion (regionGE n) (fromTree fuel st t).2 = true) :
    ∀ (es : List JTree) (st0 : Store) (acc : List HVal),
      n ≤ st0.objs.length → freshClosed n st0 →
      (∀ v ∈ acc, valInRegion (regionGE n) v = true) →
      extendsFrom
        (es.foldl (fun a e =>
          ((fromTree fuel a.1 e).1, a.2 ++ [(fromTree fuel a.1 e).2]))
          (st0, acc)).1 st0 ∧
      freshClosed n
        (es.foldl (fun a e =>
          ((fromTree fuel a.1 e).1, a.2 ++ [(fromTree fuel a.1 e).2]))
          (st0, acc)).1 ∧
      (∀ v ∈ (es.foldl (fun a e =>
          ((fromTree fuel a.1 e).1, a.2 ++ [(fromTree fuel a.1 e).2]))
          (st0, acc)).2, valInRegion (regionGE n) v = true) := by
  intro es
  induction es with
  | nil =>
    intro st0 acc h1 h2 h3
    exact ⟨⟨Nat.le_refl _, fun r _ => rfl⟩, h2, h3⟩
  | cons e es ihe =>
    intro st0 acc h1 h2 h3
    obtain ⟨⟨g1, g2⟩, g3, g4⟩ := ih st0 e h1 h2
    have h3' : ∀ v ∈ acc ++ [(fromTree fuel st0 e).2],
        valInRegion (regionGE n) v = true := by
      intro v hv
      rcases List.mem_append.mp hv with hv | hv
      · exact h3 v hv
      · rw [List.mem_singleton.mp hv]
        exact g4
    obtain ⟨⟨k1, k2⟩, k3, k4⟩ := ihe (fromTree fuel st0 e).1
      (acc ++ [(fromTree fuel st0 e).2]) (Nat.le_trans h1 g1) g3 h3'
    rw [List.foldl_cons]
    refine ⟨⟨Nat.le_trans g1 k1, ?_⟩, k3, k4⟩
    intro r hr
    rw [k2 r (Nat.lt_of_lt_of_le hr g1), g2 r hr]

theorem fromTree_fold_obj (n fuel : Nat)
    (ih : ∀ (st : Store) (t : JTree), n ≤ st.objs.length → freshClosed n st →
      extendsFrom (fromTree fuel st t).1 st ∧
        freshClosed n (fromTree fuel st t).1 ∧
        valInRegion (regionGE n) (fromTree fuel st t).2 = true) :
    ∀ (fs : List (String × JTree)) (st0 : Store) (acc : List (String × HVal)),
      n ≤ st0.objs.length → freshClosed n st0 →
      (∀ v ∈ acc, valInRegion (regionGE n) v.2 = true) →
      extendsFrom
        (fs.foldl (fun a kv =>
          ((fromTree fuel a.1 kv.2).1, a.2 ++ [(kv.1, (fromTree fuel a.1 kv.2).2)]))
          (st0, acc)).1 st0 ∧
      freshClosed n
        (fs.foldl (fun a kv =>
          ((fromTree fuel a.1 kv.2).1, a.2 ++ [(kv.1, (fromTree fuel a.1 kv.2).2)]))
          (st0, acc)).1 ∧
      (∀ v ∈ (fs.foldl (fun a kv =>
          ((fromTree fuel a.1 kv.2).1, a.2 ++ [(kv.1, (fromTree fuel a.1 kv.2).2)]))
          (st0, acc)).2, valInRegion (regionGE n) v.2 = true) := by
  intro fs
  induction fs with
  | nil =>
    intro st0 acc h1 h2 h3
    exact ⟨⟨Nat.le_refl _, fun r _ => rfl⟩, h2, h3⟩
  | cons kv fs ihe =>
    intro st0 acc h1 h2 h3
    obtain ⟨⟨g1, g2⟩, g3, g4⟩ := ih st0 kv.2 h1 h2
    have h3' : ∀ v ∈ acc ++ [(kv.1, (fromTree fuel st0 kv.2).2)],
        valInRegion (regionGE n) v.2 = true := by
      intro v hv
      rcases List.mem_append.mp hv with hv | hv
      · exact h3 v hv
      · rw [List.mem_singleton.mp hv]
        exact g4
    obtain ⟨⟨k1, k2⟩, k3, k4⟩ := ihe (fromTree fuel st0 kv.2).1
      (acc ++ [(kv.1, (fromTree fuel st0 kv.2).2)]) (Nat.le_trans h1 g1) g3 h3'
    rw [List.foldl_cons]
    refine ⟨⟨Nat.le_trans g1 k1, ?_⟩, k3, k4⟩
    intro r hr
    rw [k2 r (Nat.lt_of_lt_of_le hr g1), g2 r hr]

end Heap

namespace Heap

theorem fromTree_extends (n : Nat) :
    ∀ (fuel : Nat) (st : Store) (t : JTree),
      n ≤ st.objs.length → freshClosed n st →
      extendsFrom (fromTree fuel st t).1 st ∧
        freshClosed n (fromTree fuel st t).1 ∧
        valInRegion (regionGE n) (fromTree fuel st t).2 = true := by
  intro fuel
  induction fuel with
  | zero =>
    intro st t h1 h2
    exact ⟨⟨Nat.le_refl _, fun r _ => rfl⟩, h2, rfl⟩
  | succ fuel ih =>
    intro st t h1 h2
    cases t with
    | undefined => exact ⟨⟨Nat.le_refl _, fun r _ => rfl⟩, h2, rfl⟩
    | null => exact ⟨⟨Nat.le_refl _, fun r _ => rfl⟩, h2, rfl⟩
    | bool b => exact ⟨⟨Nat.le_refl _, fun r _ => rfl⟩, h2, rfl⟩
    | num s => exact ⟨⟨Nat.le_refl _, fun r _ => rfl⟩, h2, rfl⟩
    | str s => exact ⟨⟨Nat.le_refl _, fun r _ => rfl⟩, h2, rfl⟩
    | arr es =>
      obtain ⟨⟨g1, g2⟩, g3, g4⟩ := fromTree_fold_arr n fuel ih es st []
        h1 h2 (fun v hv => absurd hv (List.not_mem_nil v))
      show extendsFrom
          ⟨(es.foldl (fun a e =>
            ((fromTree fuel a.1 e).1, a.2 ++ [(fromTree fuel a.1 e).2]))
            (st, [])).1.objs ++
            [.arr (es.foldl (fun a e =>
              ((fromTree fuel a.1 e).1, a.2 ++ [(fromTree fuel a.1 e).2]))
              (st, [])).2]⟩ st ∧
        freshClosed n
          ⟨(es.foldl (fun a e =>
            ((fromTree fuel a.1 e).1, a.2 ++ [(fromTree fuel a.1 e).2]))
            (st, [])).1.objs ++
            [.arr (es.foldl (fun a e =>
              ((fromTree fuel a.1 e).1, a.2 ++ [(fromTree fuel a.1 e).2]))
              (st, [])).2]⟩ ∧
        valInRegion (regionGE n)
          (.vref (es.foldl (fun a e =>
            ((fromTree fuel a.1 e).1, a.2 ++ [(fromTree fuel a.1 e).2]))
            (st, [])).1.objs.length) = true
      refine ⟨⟨?_, ?_⟩, ?_, ?_⟩
      · simpa using Nat.le_trans g1 (Nat.le_succ _)
      · intro r hr
        rw [List.getElem?_append_left (Nat.lt_of_lt_of_le hr g1)]
        exact g2 r hr
      · intro r o hr hget
        by_cases hlt :
          r < (es.foldl (fun a e =>
            ((fromTree fuel a.1 e).1, a.2 ++ [(fromTree fuel a.1 e).2]))
            (st, [])).1.objs.length
        · rw [List.getElem?_append_left hlt] at hget
          exact g3 r o hr hget
        · have hle : (es.foldl (fun a e =>
              ((fromTree fuel a.1 e).1, a.2 ++ [(fromTree fuel a.1 e).2]))
              (st, [])).1.objs.length ≤ r := Nat.le_of_not_lt hlt
          have hlt2 : r < (es.foldl (fun a e =>
              ((fromTree fuel a.1 e).1, a.2 ++ [(fromTree fuel a.1 e).2]))
              (st, [])).1.objs.length + 1 := by
            by_contra hge
            have : ((es.foldl (fun a e =>
                ((fromTree fuel a.1 e).1, a.2 ++ [(fromTree fuel a.1 e).2]))
                (st, [])).1.objs ++
                [HObj.arr (es.foldl (fun a e =>
                  ((fromTree fuel a.1 e).1, a.2 ++ [(fromTree fuel a.1 e).2]))
                  (st, [])).2])[r]? = none := by
              apply List.getElem?_eq_none
              simpa using Nat.le_of_not_lt hge
            rw [this] at hget
            cases hget
          have hreq : r = (es.foldl (fun a e =>
              ((fromTree fuel a.1 e).1, a.2 ++ [(fromTree fuel a.1 e).2]))
              (st, [])).1.objs.length :=
            Nat.le_antisymm (Nat.lt_succ_iff.mp hlt2) hle
          rw [hreq, List.getElem?_concat_length] at hget
          cases hget
          simp only [objInRegion, fieldVals]
          exact List.all_eq_true.mpr g4
      · simpa [valInRegion, regionGE] using Nat.le_trans h1 g1
    | obj fs =>
      obtain ⟨⟨g1, g2⟩, g3, g4⟩ := fromTree_fold_obj n fuel ih fs st []
        h1 h2 (fun v hv => absurd hv (List.not_mem_nil v))
      show extendsFrom
          ⟨(fs.foldl (fun a kv =>
            ((fromTree fuel a.1 kv.2).1, a.2 ++ [(kv.1, (fromTree fuel a.1 kv.2).2)]))
            (st, [])).1.objs ++
            [.obj (fs.foldl (fun a kv =>
              ((fromTree fuel a.1 kv.2).1, a.2 ++ [(kv.1, (fromTree fuel a.1 kv.2).2)]))
              (st, [])).2]⟩ st ∧
        freshClosed n
          ⟨(fs.foldl (fun a kv =>
            ((fromTree fuel a.1 kv.2).1, a.2 ++ [(kv.1, (fromTree fuel a.1 kv.2).2)]))
            (st, [])).1.objs ++
            [.obj (fs.foldl (fun a kv =>
              ((fromTree fuel a.1 kv.2).1, a.2 ++ [(kv.1, (fromTree fuel a.1 kv.2).2)]))
              (st, [])).2]⟩ ∧
        valInRegion (regionGE n)
          (.vref (fs.foldl (fun a kv =>
            ((fromTree fuel a.1 kv.2).1, a.2 ++ [(kv.1, (fromTree fuel a.1 kv.2).2)]))
            (st, [])).1.objs.length) = true
      refine ⟨⟨?_, ?_⟩, ?_, ?_⟩
      · simpa using Nat.le_trans g1 (Nat.le_succ _)
      · intro r hr
        rw [List.getElem?_append_left (Nat.lt_of_lt_of_le hr g1)]
        exact g2 r hr
      · intro r o hr hget
        by_cases hlt :
          r < (fs.foldl (fun a kv =>
            ((fromTree fuel a.1 kv.2).1, a.2 ++ [(kv.1, (fromTree fuel a.1 kv.2).2)]))
            (st, [])).1.objs.length
        · rw [List.getElem?_append_left hlt] at hget
          exact g3 r o hr hget
        · have hle : (fs.foldl (fun a kv =>
              ((fromTree fuel a.1 kv.2).1, a.2 ++ [(kv.1, (fromTree fuel a.1 kv.2).2)]))
              (st, [])).1.objs.length ≤ r := Nat.le_of_not_lt hlt
          have hlt2 : r < (fs.foldl (fun a kv =>
              ((fromTree fuel a.1 kv.2).1, a.2 ++ [(kv.1, (fromTree fuel a.1 kv.2).2)]))
              (st, [])).1.objs.length + 1 := by
            by_contra hge
            have : ((fs.foldl (fun a kv =>
                ((fromTree fuel a.1 kv.2).1, a.2 ++ [(kv.1, (fromTree fuel a.1 kv.2).2)]))
                (st, [])).1.objs ++
                [HObj.obj (fs.foldl (fun a kv =>
                  ((fromTree fuel a.1 kv.2).1, a.2 ++ [(kv.1, (fromTree fuel a.1 kv.2).2)]))
                  (st, [])).2])[r]? = none := by
              apply List.getElem?_eq_none
              simpa using Nat.le_of_not_lt hge
            rw [this] at hget
            cases hget
          have hreq : r = (fs.foldl (fun a kv =>
              ((fromTree fuel a.1 kv.2).1, a.2 ++ [(kv.1, (fromTree fuel a.1 kv.2).2)]))
              (st, [])).1.objs.length :=
            Nat.le_antisymm (Nat.lt_succ_iff.mp hlt2) hle
          rw [hreq, List.getElem?_concat_length] at hget
          cases hget
          simp only [objInRegion, fieldVals]
          refine List.all_eq_true.mpr ?_
          intro x hx
          obtain ⟨q, hq, hqx⟩ := List.mem_map.mp hx
          rw [← hqx]
          exact g4 q hq
      · simpa [valInRegion, regionGE] using Nat.le_trans h1 g1

end Heap

namespace Heap

/-- Claim C7: the configuration snapshot built by `createInstance` line 49
(`JSON.parse(JSON.stringify(config || \x7b\x7d))`, modelled by
`configSnapshotCopy`) shares no mutable object with the caller's value:
overwriting any pre-existing object (in particular any object reachable
from the caller's config) leaves the snapshot's serialized form unchanged,
and overwriting any freshly allocated object (in particular any object
reachable from the snapshot) leaves the caller config's serialized form
unchanged, at every serialization depth. -/
theorem createInstance_config_snapshot_no_aliasing
    (st : Store) (cfg : HVal) (fuel : Nat) (st' : Store) (snap : HVal)
    (hwf : storeClosedOn st (regionLT st.objs.length) = true)
    (hcfg : valInRegion (regionLT st.objs.length) cfg = true)
    (hcopy : configSnapshotCopy fuel st cfg = some (st', snap)) :
    (∀ (r : Nat) (o : HObj) (f2 : Nat), r < st.objs.length →
      toTree f2 (updateObj st' r o) snap = toTree f2 st' snap) ∧
    (∀ (r : Nat) (o : HObj) (f2 : Nat), st.objs.length ≤ r →
      toTree f2 (updateObj st' r o) cfg = toTree f2 st' cfg) := by
  obtain ⟨t, ht, hft⟩ :
      ∃ t, toTree fuel st cfg = some t ∧ fromTree fuel st t = (st', snap) := by
    unfold configSnapshotCopy at hcopy
    cases htc : toTree fuel st cfg with
    | none => rw [htc] at hcopy; cases hcopy
    | some t => rw [htc] at hcopy; exact ⟨t, rfl, by simpa using hcopy⟩
  have hfresh0 : freshClosed st.objs.length st := by
    intro r o hr hget
    rw [List.getElem?_eq_none hr] at hget
    cases hget
  obtain ⟨⟨g1, g2⟩, g3, g4⟩ :=
    fromTree_extends st.objs.length fuel st t (Nat.le_refl _) hfresh0
  have hst1 : (fromTree fuel st t).1 = st' := by rw [hft]
  have hsnap : (fromTree fuel st t).2 = snap := by rw [hft]
  rw [hst1] at g1 g2 g3
  rw [hsnap] at g4
  constructor
  · intro r o f2 hrlt
    refine (toTree_agree (regionGE st.objs.length) st' (updateObj st' r o)
      ?_ ?_ f2 snap g4).symm
    · intro r2 o2 hp hget
      exact g3 r2 o2 (by simpa [regionGE] using hp) hget
    · intro r2 hp
      have hne : r ≠ r2 := by
        have : st.objs.length ≤ r2 := by simpa [regionGE] using hp
        omega
      exact (List.getElem?_set_ne hne).symm
  · intro r o f2 hrge
    refine (toTree_agree (regionLT st.objs.length) st' (updateObj st' r o)
      ?_ ?_ f2 cfg hcfg).symm
    · intro r2 o2 hp hget
      have hr2 : r2 < st.objs.length := by simpa [regionLT] using hp
      rw [g2 r2 hr2] at hget
      exact storeClosedOn_spec st (regionLT st.objs.length) hwf r2 o2 hp hget
    · intro r2 hp
      have hne : r ≠ r2 := by
        have : r2 < st.objs.length := by simpa [regionLT] using hp
        omega
      exact (List.getElem?_set_ne hne).symm

end Heap

/-- Witness for C7: a two-object store whose config object references a
nested object; after the copy, mutating a caller object does not change
the snapshot's serialization and mutating a snapshot object does not
change the caller's. -/
theorem createInstance_config_snapshot_no_aliasing_witness :
    Heap.toTree 5
        (Heap.updateObj
          ⟨[.obj [("a", .vref 1)], .obj [("b", .vnum "1")],
            .obj [("b", .vnum "1")], .obj [("a", .vref 2)]]⟩
          0 (.obj [("a", .vnull)]))
        (.vref 3) =
      Heap.toTree 5
        ⟨[.obj [("a", .vref 1)], .obj [("b", .vnum "1")],
          .obj [("b", .vnum "1")], .obj [("a", .vref 2)]]⟩ (.vref 3) ∧
    Heap.toTree 5
        (Heap.updateObj
          ⟨[.obj [("a", .vref 1)], .obj [("b", .vnum "1")],
            .obj [("b", .vnum "1")], .obj [("a", .vref 2)]]⟩
          3 (.obj []))
        (.vref 0) =
      Heap.toTree 5
        ⟨[.obj [("a", .vref 1)], .obj [("b", .vnum "1")],
          .obj [("b", .vnum "1")], .obj [("a", .vref 2)]]⟩ (.vref 0) :=
  ⟨(Heap.createInstance_config_snapshot_no_aliasing
      ⟨[.obj [("a", .vref 1)], .obj [("b", .vnum "1")]]⟩ (.vref 0) 5
      ⟨[.obj [("a", .vref 1)], .obj [("b", .vnum "1")],
        .obj [("b", .vnum "1")], .obj [("a", .vref 2)]]⟩ (.vref 3)
      rfl rfl rfl).1 0 (.obj [("a", .vnull)]) 5 (by decide),
    (Heap.createInstance_config_snapshot_no_aliasing
      ⟨[.obj [("a", .vref 1)], .obj [("b", .vnum "1")]]⟩ (.vref 0) 5
      ⟨[.obj [("a", .vref 1)], .obj [("b", .vnum "1")],
        .obj [("b", .vnum "1")], .obj [("a", .vref 2)]]⟩ (.vref 3)
      rfl rfl rfl).2 3 (.obj []) 5 (by decide)⟩
